import Mathlib

/-!
Verification development for the SpinCoater controller
(GUI_spin_coater.py).  The definitions below are a shallow embedding of
the recipe store, its permission model, and the motor execution engine;
theorems check the behavioural claims of the specification against them.
-/

namespace SpinCoater

/-- Record stored in the recipe dictionary (GUI_spin_coater.py, the dict
built in save_recipe lines 482-490): name, speed, duration, acceleration,
author, shared. -/
structure Recipe where
  name : String
  speed : Nat
  duration : Nat
  acceleration : Nat
  author : String
  shared : Bool
deriving DecidableEq, Repr

/-- The in-memory store self.saved_recipes: a Python dict from recipe id
(UUID string) to record, modelled as an insertion-ordered association
list with unique keys. -/
abbrev Store := List (String × Recipe)

/-- Python dict assignment d[k] = v: replaces the value in place if the
key is present, otherwise appends at the end. -/
def dictInsert (k : String) (v : Recipe) : Store → Store
  | [] => [(k, v)]
  | (k', v') :: rest => if k' = k then (k, v) :: rest else (k', v') :: dictInsert k v rest

/-- Python dict lookup d.get(k). -/
def dictGet (k : String) : Store → Option Recipe
  | [] => none
  | (k', v') :: rest => if k' = k then some v' else dictGet k rest

/-- Python dict deletion del d[k] (keys are unique in a dict, so removing
the first occurrence matches). -/
def dictRemove (k : String) : Store → Store
  | [] => []
  | (k', v') :: rest => if k' = k then rest else (k', v') :: dictRemove k rest

/-- SpinCoaterGUI.refresh_recipe_list (lines 370-441), reduced to its data
content: returns the two displayed groups (my private recipes, shared
recipes), each sorted by name ascending as list.sort(key=name) does.
With no operator selected (empty current_user) the function returns
early and the listing is empty.  Rendering of headers, spacers and
author suffixes is presentation and carries no further recipes. -/
def refresh_recipe_list (store : Store) (current_user : String) : Store × Store :=
  if current_user = "" then ([], [])
  else
    (List.insertionSort (fun a b => a.2.name ≤ b.2.name)
       (store.filter (fun p => !p.2.shared && p.2.author == current_user)),
     List.insertionSort (fun a b => a.2.name ≤ b.2.name)
       (store.filter (fun p => p.2.shared)))

/-- Result of SpinCoaterGUI.save_recipe, one constructor per distinct
return path of the source (lines 443-497): missing user (line 446),
missing name (line 449), permission refusal (line 471), successful save
carrying the id written. -/
inductive SaveStatus where
  | noUserError : SaveStatus
  | noNameError : SaveStatus
  | permissionError (name author : String) : SaveStatus
  | saved (recipeId : String) : SaveStatus
deriving DecidableEq, Repr

/-- Text of the QMessageBox.warning shown on each save_recipe return
path; none when the source returns silently or succeeds. -/
def SaveStatus.warningMessage : SaveStatus → Option String
  | .noUserError => some "Please select a User first!"
  | .noNameError => none
  | .permissionError nm author =>
      some ("You cannot modify \x27" ++ nm ++ "\x27 because it belongs to " ++ author ++
        " and is not shared.")
  | .saved _ => none

/-- Whether a save status is one of the two validation failures
(empty acting user / empty name). -/
def SaveStatus.isValidationError : SaveStatus → Bool
  | .noUserError => true
  | .noNameError => true
  | _ => false

/-- Outcome of a store mutation: final status, the in-memory store after
the call, and the content written to recipes.json (none when the call
returned before the json.dump). -/
structure SaveOutcome where
  status : SaveStatus
  saved_recipes : Store
  fileWritten : Option Store
deriving DecidableEq, Repr

/-- SpinCoaterGUI.save_recipe (lines 443-497).  Inputs: the store, the
form fields, the id carried by the selected list item (none when no item
is selected or a header row is selected; an empty-string id is falsy in
Python and treated the same), and the uuid4 value that would be
generated for a new entry.  The author written mirrors line 488: the
existing record author when recipe_id is already a key, else the acting
user. -/
def save_recipe (store : Store) (user name : String) (selectedId : Option String)
    (speed duration acceleration : Nat) (sharedChecked : Bool) (freshId : String) :
    SaveOutcome :=
  if user = "" then ⟨.noUserError, store, none⟩
  else if name = "" then ⟨.noNameError, store, none⟩
  else
    let selected : Option String :=
      match selectedId with
      | some s => if s = "" then none else some s
      | none => none
    let permissionRefusal : Option SaveStatus :=
      match selected with
      | some rid =>
        match dictGet rid store with
        | some existing =>
            if existing.author ≠ user ∧ existing.shared = false then
              some (.permissionError name existing.author)
            else none
        | none => none
      | none => none
    match permissionRefusal with
    | some st => ⟨st, store, none⟩
    | none =>
      let recipe_id := match selected with | some rid => rid | none => freshId
      let author := match dictGet recipe_id store with | some ex => ex.author | none => user
      let newRec : Recipe := ⟨name, speed, duration, acceleration, author, sharedChecked⟩
      let store' := dictInsert recipe_id newRec store
      ⟨.saved recipe_id, store', some store'⟩

/-- Result of SpinCoaterGUI.delete_recipe, one constructor per return
path (lines 512-539): nothing selected / falsy id, unknown id
(line 520, a silent return), permission refusal (line 528), successful
deletion carrying the deleted recipe name. -/
inductive DeleteStatus where
  | noSelection : DeleteStatus
  | notFound : DeleteStatus
  | permissionError : DeleteStatus
  | deleted (name : String) : DeleteStatus
deriving DecidableEq, Repr

/-- Text of the QMessageBox.warning shown on each delete_recipe path. -/
def DeleteStatus.warningMessage : DeleteStatus → Option String
  | .permissionError => some "You cannot delete this recipe. It belongs to another user."
  | _ => none

/-- Outcome of delete_recipe: status, resulting store, recipes.json
content if written. -/
structure DeleteOutcome where
  status : DeleteStatus
  saved_recipes : Store
  fileWritten : Option Store
deriving DecidableEq, Repr

/-- SpinCoaterGUI.delete_recipe (lines 512-539).  selectedId is the id
carried by the currently selected list item (none when no selection). -/
def delete_recipe (store : Store) (current_user : String) (selectedId : Option String) :
    DeleteOutcome :=
  match selectedId with
  | none => ⟨.noSelection, store, none⟩
  | some rid =>
    if rid = "" then ⟨.noSelection, store, none⟩
    else
      match dictGet rid store with
      | none => ⟨.notFound, store, none⟩
      | some data =>
        if data.author ≠ current_user ∧ data.shared = false then
          ⟨.permissionError, store, none⟩
        else
          let store' := dictRemove rid store
          ⟨.deleted data.name, store', some store'⟩

/-- A step dict handed to MotorWorker: either a recipe copy tagged
type=spin (start_process lines 576-579) or a wait dict
(add_wait_step line 610, always named Wait). -/
inductive Step where
  | spin (name : String) (speed duration acceleration : Nat) : Step
  | wait (name : String) (duration : Nat) : Step
deriving DecidableEq, Repr

/-- Seconds of ticking a step performs (the duration field of the
underlying dict). -/
def Step.duration : Step → Nat
  | .spin _ _ d _ => d
  | .wait _ d => d

/-- An entry of the Execution Queue list widget: a wait item carries its
dict in UserRole; a dragged recipe item carries only its display text
(the drag copies the text and loses UserRole, start_process
lines 562-567). -/
inductive QueueItem where
  | waitStep (duration : Nat) : QueueItem
  | recipeText (text : String) : QueueItem
deriving DecidableEq, Repr

/-- Characters before the first occurrence of the two-character
separator space-then-open-parenthesis. -/
def takeUntilParen : List Char → List Char
  | [] => []
  | ' ' :: '(' :: _ => []
  | ch :: rest => ch :: takeUntilParen rest

/-- item_text.split(" (")[0]: the display text before any appended
author suffix (the whole text when no such suffix exists). -/
def cleanName (s : String) : String := String.mk (takeUntilParen s.data)

/-- The name-lookup loop of start_process (lines 570-574): first recipe
in store iteration order whose name equals the cleaned text. -/
def findByName (store : Store) (nm : String) : Option Recipe :=
  match store with
  | [] => none
  | (_, r) :: rest => if r.name = nm then some r else findByName rest nm

/-- SpinCoaterGUI.start_process step assembly (lines 549-582): walks the
queue in order; wait items become wait steps as stored; recipe items are
re-resolved by name against the current store, and are dropped when no
recipe matches. -/
def start_process (store : Store) (queue : List QueueItem) : List Step :=
  queue.filterMap fun item =>
    match item with
    | .waitStep d => some (Step.wait "Wait" d)
    | .recipeText t =>
      match findByName store (cleanName t) with
      | some r => some (Step.spin r.name r.speed r.duration r.acceleration)
      | none => none

/-- The pieces of application state delete_user touches or could touch:
the user list and the recipe store. -/
structure AppState where
  users : List String
  saved_recipes : Store
deriving DecidableEq, Repr

/-- SpinCoaterGUI.delete_user (lines 624-632): on a confirmed request
for a known, non-empty name, removes that name from the user list
(list.remove = first occurrence) and rewrites users.json; the returned
Bool records whether users.json was written.  The recipe store is not
touched. -/
def delete_user (st : AppState) (u : String) (confirmed : Bool) : AppState × Bool :=
  if u ≠ "" ∧ u ∈ st.users then
    if confirmed then ({ users := st.users.erase u, saved_recipes := st.saved_recipes }, true)
    else (st, false)
  else (st, false)

/-- A record as persisted in recipes.json before load: legacy records
(keyed by recipe name) lack the name field. -/
structure RawVal where
  name : Option String
  speed : Nat
  duration : Nat
  acceleration : Nat
  author : String
  shared : Bool
deriving DecidableEq, Repr

/-- The migration loop body of SpinCoaterGUI.load_data (lines 354-365),
folding raw_data into self.saved_recipes.  gen n is the n-th value
produced by uuid.uuid4 during the load. -/
def loadGo (gen : Nat → String) : List (String × RawVal) → Nat → Store → Store
  | [], _, acc => acc
  | (key, val) :: rest, n, acc =>
    match val.name with
    | none =>
        loadGo gen rest (n + 1)
          (dictInsert (gen n) ⟨key, val.speed, val.duration, val.acceleration, val.author, val.shared⟩ acc)
    | some nm =>
        loadGo gen rest n
          (dictInsert key ⟨nm, val.speed, val.duration, val.acceleration, val.author, val.shared⟩ acc)

/-- SpinCoaterGUI.load_data recipe migration (lines 354-365): raw_data
is the parsed recipes.json in file order. -/
def load_data (gen : Nat → String) (raw : List (String × RawVal)) : Store :=
  loadGo gen raw 0 []

/-- The migration fold written as a flat list: each raw record in file
order becomes one stored record; legacy records are rekeyed to the next
uuid and get their legacy key as name. -/
def loadDataFlat (gen : Nat → String) : List (String × RawVal) → Nat → Store
  | [], _ => []
  | (key, val) :: rest, n =>
    match val.name with
    | none =>
        (gen n, ⟨key, val.speed, val.duration, val.acceleration, val.author, val.shared⟩) ::
          loadDataFlat gen rest (n + 1)
    | some nm =>
        (key, ⟨nm, val.speed, val.duration, val.acceleration, val.author, val.shared⟩) ::
          loadDataFlat gen rest n

/-- Observable actions of MotorWorker.run (lines 60-126), in emission
order: progress_update.emit calls (init, connected, errorEmit, ramp,
spinTick, waitTick, complete), serial writes (cmd), serial close
(closePort), the finished signal (finishedSig), and each read of
self.is_running with the value it returned (check). -/
inductive Ev where
  | init : Ev
  | connected : Ev
  | errorEmit (msg : String) : Ev
  | ramp (loopIdx total : Nat) (name : String) (speed : Nat) : Ev
  | spinTick (loopIdx total : Nat) (name : String) (speed t : Nat) : Ev
  | waitTick (loopIdx total : Nat) (name : String) (t : Nat) : Ev
  | cmd (s : String) : Ev
  | closePort : Ev
  | complete : Ev
  | finishedSig : Ev
  | check (b : Bool) : Ev
deriving DecidableEq, Repr

/-- The Loop i/n | name part of every per-step message (line 90). -/
def loopTag (l total : Nat) (name : String) : String :=
  "Loop " ++ toString l ++ "/" ++ toString total ++ " | " ++ name

/-- Exact text each progress_update.emit call sends, matching the
f-strings of the source; none for non-emission events. -/
def Ev.message : Ev → Option String
  | .init => some "Initializing..."
  | .connected => some "Connected to COM3"
  | .errorEmit m => some m
  | .ramp l total name speed =>
      some (loopTag l total name ++ ": Ramping to " ++ toString speed ++ " RPM...")
  | .spinTick l total name speed t =>
      some (loopTag l total name ++ ": Spinning " ++ toString speed ++ " RPM (" ++
        toString t ++ "s left)")
  | .waitTick l total name t =>
      some (loopTag l total name ++ ": WAITING " ++ toString t ++ "s...")
  | .complete => some "Process Complete."
  | _ => none

/-- Events delivered on the progress_update signal. -/
def Ev.isNotification : Ev → Bool
  | .init | .connected | .errorEmit _ | .ramp .. | .spinTick .. | .waitTick .. | .complete => true
  | _ => false

/-- Per-step progress notifications (ramping message and per-second
spin/wait messages). -/
def Ev.isStepNotif : Ev → Bool
  | .ramp .. | .spinTick .. | .waitTick .. => true
  | _ => false

/-- Serial device writes. -/
def Ev.isCmd : Ev → Bool
  | .cmd _ => true
  | _ => false

/-- Per-second tick notifications (the messages emitted inside the two
countdown loops). -/
def Ev.isTick : Ev → Bool
  | .spinTick .. | .waitTick .. => true
  | _ => false

/-- Reads of self.is_running. -/
def Ev.isCheck : Ev → Bool
  | .check _ => true
  | _ => false

/-!
Cancellation model: stop() flips self.is_running once, from another
thread, so along one run the reads of the flag are a prefix of trues
followed by falses.  cancel = none means stop() is never called;
cancel = some k means the first k reads see true and every later read
sees false.
-/

/-- The shape shared by the two per-second countdown loops
(for t in range(duration, 0, -1), lines 98-101 and 115-118): check the
flag, break if cleared, emit the tick for the current t, sleep one
second. -/
def countdown (mkTick : Nat → Ev) : Nat → Option Nat → List Ev × Option Nat
  | 0, c => ([], c)
  | _ + 1, some 0 => ([Ev.check false], some 0)
  | t + 1, none =>
      let r := countdown mkTick t none
      (Ev.check true :: mkTick (t + 1) :: r.1, r.2)
  | t + 1, some (k + 1) =>
      let r := countdown mkTick t (some k)
      (Ev.check true :: mkTick (t + 1) :: r.1, r.2)

/-- Spin countdown (lines 115-118). -/
def spinTicks (l total : Nat) (nm : String) (sp : Nat) (t : Nat) (c : Option Nat) :
    List Ev × Option Nat :=
  countdown (Ev.spinTick l total nm sp) t c

/-- Wait countdown (lines 98-101). -/
def waitTicks (l total : Nat) (nm : String) (t : Nat) (c : Option Nat) :
    List Ev × Option Nat :=
  countdown (Ev.waitTick l total nm) t c

/-- Body of the per-step branch (lines 87-118): a wait step stops the
motor in live mode then counts down; a spin step sends the speed
command in live mode, emits the ramp message, sleeps one settle second,
then counts down.  hasSer is whether self.ser is an open connection. -/
def execStep (sim hasSer : Bool) (l total : Nat) (s : Step) (c : Option Nat) :
    List Ev × Option Nat :=
  match s with
  | .wait nm d =>
      let pre : List Ev := if !sim && hasSer then [Ev.cmd "SPEED:0\n"] else []
      let r := waitTicks l total nm d c
      (pre ++ r.1, r.2)
  | .spin nm sp d _ =>
      let pre : List Ev := if !sim && hasSer then [Ev.cmd ("SPEED:" ++ toString sp ++ "\n")] else []
      let r := spinTicks l total nm sp d c
      (pre ++ Ev.ramp l total nm sp :: r.1, r.2)

/-- for step in self.recipe_steps (lines 84-118) with the break at the
top of each iteration (line 85). -/
def runSteps (sim hasSer : Bool) (l total : Nat) : List Step → Option Nat → List Ev × Option Nat
  | [], c => ([], c)
  | _ :: _, some 0 => ([Ev.check false], some 0)
  | s :: rest, none =>
      let r1 := execStep sim hasSer l total s none
      let r2 := runSteps sim hasSer l total rest r1.2
      (Ev.check true :: (r1.1 ++ r2.1), r2.2)
  | s :: rest, some (k + 1) =>
      let r1 := execStep sim hasSer l total s (some k)
      let r2 := runSteps sim hasSer l total rest r1.2
      (Ev.check true :: (r1.1 ++ r2.1), r2.2)

/-- for current_loop in range(1, total_loops + 1) (lines 81-118) with
the break at the top of each iteration (line 82); cur is the index of
the next iteration and rem how many remain. -/
def runLoops (sim hasSer : Bool) (steps : List Step) (total : Nat) :
    Nat → Nat → Option Nat → List Ev × Option Nat
  | _, 0, c => ([], c)
  | _, _ + 1, some 0 => ([Ev.check false], some 0)
  | cur, rem + 1, none =>
      let r1 := runSteps sim hasSer cur total steps none
      let r2 := runLoops sim hasSer steps total (cur + 1) rem r1.2
      (Ev.check true :: (r1.1 ++ r2.1), r2.2)
  | cur, rem + 1, some (k + 1) =>
      let r1 := runSteps sim hasSer cur total steps (some k)
      let r2 := runLoops sim hasSer steps total (cur + 1) rem r1.2
      (Ev.check true :: (r1.1 ++ r2.1), r2.2)

/-- MotorWorker.run (lines 60-126) as the list of its observable actions
in order.  simulation_mode and serial_available mirror the flags of the
source; connect_error is some message when serial.Serial raises (the
message interpolated at line 74), none when the port opens. -/
def MotorWorker.run (recipe_steps : List Step) (loop_count : Nat)
    (simulation_mode serial_available : Bool) (connect_error : Option String)
    (cancel : Option Nat) : List Ev :=
  if simulation_mode then
    Ev.init ::
      (runLoops true false recipe_steps loop_count 1 loop_count cancel).1 ++
      [Ev.complete, Ev.finishedSig]
  else if serial_available = false then
    [Ev.init, Ev.errorEmit "Error: pyserial not installed!", Ev.finishedSig]
  else
    match connect_error with
    | some e => [Ev.init, Ev.errorEmit ("Connection Error: " ++ e), Ev.finishedSig]
    | none =>
        Ev.init :: Ev.connected ::
          (runLoops false true recipe_steps loop_count 1 loop_count cancel).1 ++
          [Ev.cmd "SPEED:0\n", Ev.closePort, Ev.complete, Ev.finishedSig]

/-- Holds when no per-step progress notification occurs anywhere after
a read of self.is_running that returned false (the moment cancellation
is observed). -/
def noStepNotifAfterCancel : List Ev → Bool
  | [] => true
  | e :: rest =>
      if e = Ev.check false then rest.all (fun x => !x.isStepNotif)
      else noStepNotifAfterCancel rest

/-- Every tick notification in the list is immediately preceded by a
flag read that returned true, prev being the event just before the
list. -/
def ticksCheckedFrom (prev : Ev) : List Ev → Bool
  | [] => true
  | e :: rest => (!e.isTick || (prev == Ev.check true)) && ticksCheckedFrom e rest

/-- Every tick notification of the trace is immediately preceded by a
flag read that returned true. -/
def ticksOk : List Ev → Bool
  | [] => true
  | e :: rest => !e.isTick && ticksCheckedFrom e rest

/-- Number of reads of self.is_running in a trace. -/
def countChecks (l : List Ev) : Nat := l.countP (fun e => e.isCheck)

/-- Flag reads one full pass over the step list performs: one at the
top of each step plus one per countdown second. -/
def checksPerLoop (steps : List Step) : Nat :=
  steps.foldr (fun s acc => 1 + s.duration + acc) 0

theorem dictGet_dictInsert_self (k : String) (v : Recipe) (l : Store) :
    dictGet k (dictInsert k v l) = some v := by
  induction l with
  | nil => simp [dictInsert, dictGet]
  | cons p rest ih =>
    obtain ⟨k', v'⟩ := p
    by_cases h : k' = k
    · simp [dictInsert, dictGet, h]
    · simp [dictInsert, dictGet, h, ih]

theorem dictGet_dictInsert_ne (k k' : String) (v : Recipe) (l : Store) (h : k' ≠ k) :
    dictGet k' (dictInsert k v l) = dictGet k' l := by
  have hk : k ≠ k' := Ne.symm h
  induction l with
  | nil => simp [dictInsert, dictGet, hk]
  | cons p rest ih =>
    obtain ⟨k0, v0⟩ := p
    by_cases h0 : k0 = k
    · subst h0
      simp [dictInsert, dictGet, hk]
    · simp [dictInsert, dictGet, h0, ih]

theorem dictGet_eq_none_of_not_mem (k : String) (l : Store)
    (h : k ∉ l.map Prod.fst) : dictGet k l = none := by
  induction l with
  | nil => simp [dictGet]
  | cons p rest ih =>
    obtain ⟨k', v'⟩ := p
    simp only [List.map_cons, List.mem_cons] at h
    push_neg at h
    simp [dictGet, Ne.symm h.1, ih h.2]

theorem dictGet_dictRemove_self (k : String) (l : Store)
    (h : (l.map Prod.fst).Nodup) : dictGet k (dictRemove k l) = none := by
  induction l with
  | nil => simp [dictRemove, dictGet]
  | cons p rest ih =>
    obtain ⟨k', v'⟩ := p
    simp only [List.map_cons, List.nodup_cons] at h
    by_cases h0 : k' = k
    · rw [show dictRemove k ((k', v') :: rest) = rest from by simp [dictRemove, h0]]
      exact dictGet_eq_none_of_not_mem _ _ (h0 ▸ h.1)
    · simp [dictRemove, dictGet, h0, ih h.2]

/-- Membership in the private group of the listing. -/
theorem mem_refresh_fst (store : Store) (u rid : String) (r : Recipe) (hu : u ≠ "") :
    (rid, r) ∈ (refresh_recipe_list store u).1 ↔
      ((rid, r) ∈ store ∧ r.shared = false ∧ r.author = u) := by
  simp only [refresh_recipe_list, if_neg hu]
  rw [(List.perm_insertionSort _ _).mem_iff, List.mem_filter]
  simp [Bool.and_eq_true, and_assoc]

/-- Membership in the shared group of the listing. -/
theorem mem_refresh_snd (store : Store) (u rid : String) (r : Recipe) (hu : u ≠ "") :
    (rid, r) ∈ (refresh_recipe_list store u).2 ↔
      ((rid, r) ∈ store ∧ r.shared = true) := by
  simp only [refresh_recipe_list, if_neg hu]
  rw [(List.perm_insertionSort _ _).mem_iff, List.mem_filter]

/-- findByName is first-match search over the store association list. -/
theorem findByName_eq_find? (l : Store) (nm : String) :
    findByName l nm = (l.find? (fun p => p.2.name == nm)).map (fun p => p.2) := by
  induction l with
  | nil => simp [findByName]
  | cons p rest ih =>
    obtain ⟨k, r⟩ := p
    by_cases h : r.name = nm <;> simp [findByName, List.find?_cons, h, ih]

/-- Claim C1: a recipe in the store appears in the listing computed for
acting user U (the private group or the shared group) iff it is shared
or authored by U; a non-shared recipe authored by someone else appears
in neither group. -/
theorem refresh_recipe_list_visibility (store : Store) (u rid : String) (r : Recipe)
    (hu : u ≠ "") (hmem : (rid, r) ∈ store) :
    (((rid, r) ∈ (refresh_recipe_list store u).1 ∨ (rid, r) ∈ (refresh_recipe_list store u).2)
      ↔ (r.shared = true ∨ r.author = u)) ∧
    (r.shared = false → r.author ≠ u →
      (rid, r) ∉ (refresh_recipe_list store u).1 ∧ (rid, r) ∉ (refresh_recipe_list store u).2) := by
  rw [mem_refresh_fst store u rid r hu, mem_refresh_snd store u rid r hu]
  cases hs : r.shared <;> simp [hmem]

/-- Concrete instance of refresh_recipe_list_visibility: a shared recipe
of alice is visible to bob. -/
theorem refresh_recipe_list_visibility_witness :
    ((("id1", (⟨"A", 1000, 10, 5, "alice", true⟩ : Recipe))
        ∈ (refresh_recipe_list [("id1", ⟨"A", 1000, 10, 5, "alice", true⟩)] "bob").1 ∨
      ("id1", (⟨"A", 1000, 10, 5, "alice", true⟩ : Recipe))
        ∈ (refresh_recipe_list [("id1", ⟨"A", 1000, 10, 5, "alice", true⟩)] "bob").2)
      ↔ ((⟨"A", 1000, 10, 5, "alice", true⟩ : Recipe).shared = true ∨
        (⟨"A", 1000, 10, 5, "alice", true⟩ : Recipe).author = "bob")) ∧
    ((⟨"A", 1000, 10, 5, "alice", true⟩ : Recipe).shared = false →
      (⟨"A", 1000, 10, 5, "alice", true⟩ : Recipe).author ≠ "bob" →
      ("id1", (⟨"A", 1000, 10, 5, "alice", true⟩ : Recipe))
        ∉ (refresh_recipe_list [("id1", ⟨"A", 1000, 10, 5, "alice", true⟩)] "bob").1 ∧
      ("id1", (⟨"A", 1000, 10, 5, "alice", true⟩ : Recipe))
        ∉ (refresh_recipe_list [("id1", ⟨"A", 1000, 10, 5, "alice", true⟩)] "bob").2) :=
  refresh_recipe_list_visibility _ "bob" "id1" _ (by decide) (by decide)

/-- Claim C2 counterexample: a recipe named A was queued while the store
held speed 1000; before the run it was edited to speed 2500.  The step
assembled at run start carries the edited speed 2500, and differs from
the step list the queue-time store would have produced — the queued step
is not a queue-time snapshot. -/
theorem start_process_snapshot_counterexample :
    start_process [("id1", ⟨"A", 2500, 10, 5, "alice", false⟩)] [QueueItem.recipeText "A"] =
      [Step.spin "A" 2500 10 5] ∧
    start_process [("id1", ⟨"A", 2500, 10, 5, "alice", false⟩)] [QueueItem.recipeText "A"] ≠
      start_process [("id1", ⟨"A", 1000, 10, 5, "alice", false⟩)] [QueueItem.recipeText "A"] := by
  decide

/-- Claim C2 (amended): a queued recipe item retains only its display
text; at run start it is re-resolved against the current store — the
executed parameters are those of the first recipe (in store order)
whose name equals the text stripped of any author suffix, so edits made
after queuing take effect, and if no recipe matches any more (e.g. the
recipe was renamed) the queued item is silently dropped. -/
theorem start_process_resolves_current_store (store : Store) (t : String)
    (rest : List QueueItem) :
    start_process store (QueueItem.recipeText t :: rest) =
      (match store.find? (fun p => p.2.name == cleanName t) with
       | some p => Step.spin p.2.name p.2.speed p.2.duration p.2.acceleration ::
           start_process store rest
       | none => start_process store rest) := by
  cases hfind : store.find? (fun p => p.2.name == cleanName t) <;>
    simp [start_process, List.filterMap_cons, findByName_eq_find?, hfind]

/-- Claim C3: an authorized update of an existing recipe overwrites
name, speed, duration, acceleration and shared, leaves author equal to
its value before the save (even when the acting user differs from the
author), and leaves every other store entry untouched. -/
theorem save_recipe_preserves_author (store : Store) (user name rid freshId : String)
    (ex : Recipe) (speed duration acceleration : Nat) (sharedChecked : Bool)
    (hu : user ≠ "") (hn : name ≠ "") (hrid : rid ≠ "")
    (hex : dictGet rid store = some ex)
    (hauth : user = ex.author ∨ ex.shared = true) :
    (save_recipe store user name (some rid) speed duration acceleration sharedChecked
        freshId).status = .saved rid ∧
    dictGet rid (save_recipe store user name (some rid) speed duration acceleration
        sharedChecked freshId).saved_recipes =
      some ⟨name, speed, duration, acceleration, ex.author, sharedChecked⟩ ∧
    (∀ k, k ≠ rid →
      dictGet k (save_recipe store user name (some rid) speed duration acceleration
          sharedChecked freshId).saved_recipes = dictGet k store) := by
  have hperm : ¬(ex.author ≠ user ∧ ex.shared = false) := by
    rcases hauth with h | h
    · intro hc; exact hc.1 h.symm
    · intro hc; rw [h] at hc; cases hc.2
  simp only [save_recipe, if_neg hu, if_neg hn, if_neg hrid, hex, if_neg hperm]
  exact ⟨by trivial, dictGet_dictInsert_self _ _ _, fun k hk => dictGet_dictInsert_ne _ _ _ _ hk⟩

/-- Concrete instance of save_recipe_preserves_author: bob updates
alice's shared recipe; the author stays alice. -/
theorem save_recipe_preserves_author_witness :
    (save_recipe [("id1", ⟨"A", 1000, 10, 5, "alice", true⟩)] "bob" "B" (some "id1")
        2000 20 9 true "fresh-1").status = .saved "id1" ∧
    dictGet "id1" (save_recipe [("id1", ⟨"A", 1000, 10, 5, "alice", true⟩)] "bob" "B"
        (some "id1") 2000 20 9 true "fresh-1").saved_recipes =
      some ⟨"B", 2000, 20, 9, "alice", true⟩ ∧
    (∀ k, k ≠ "id1" →
      dictGet k (save_recipe [("id1", ⟨"A", 1000, 10, 5, "alice", true⟩)] "bob" "B"
          (some "id1") 2000 20 9 true "fresh-1").saved_recipes =
        dictGet k [("id1", ⟨"A", 1000, 10, 5, "alice", true⟩)]) :=
  save_recipe_preserves_author _ "bob" "B" "id1" "fresh-1" ⟨"A", 1000, 10, 5, "alice", true⟩
    2000 20 9 true (by decide) (by decide) (by decide) (by decide) (Or.inr rfl)

/-- Claim C4: delete with an unknown identifier takes the not-found
return path and leaves store and file untouched; delete by a non-author
on a non-shared recipe takes the permission-refusal path and leaves the
store (in particular the targeted recipe) untouched; the recipe is
removed exactly when the acting user is the author or the recipe is
shared. -/
theorem delete_recipe_spec (store : Store) (user rid : String)
    (hrid : rid ≠ "") (hnodup : (store.map Prod.fst).Nodup) :
    (dictGet rid store = none →
      delete_recipe store user (some rid) = ⟨.notFound, store, none⟩) ∧
    (∀ r, dictGet rid store = some r → r.author ≠ user → r.shared = false →
      delete_recipe store user (some rid) = ⟨.permissionError, store, none⟩ ∧
      dictGet rid (delete_recipe store user (some rid)).saved_recipes = some r) ∧
    (∀ r, dictGet rid store = some r → (r.author = user ∨ r.shared = true) →
      (delete_recipe store user (some rid)).status = .deleted r.name ∧
      dictGet rid (delete_recipe store user (some rid)).saved_recipes = none ∧
      (delete_recipe store user (some rid)).fileWritten =
        some (delete_recipe store user (some rid)).saved_recipes) := by
  refine ⟨?_, ?_, ?_⟩
  · intro hnone
    simp [delete_recipe, hrid, hnone]
  · intro r hr hra hrs
    have : r.author ≠ user ∧ r.shared = false := ⟨hra, hrs⟩
    simp [delete_recipe, hrid, hr, this]
  · intro r hr hok
    have hperm : ¬(r.author ≠ user ∧ r.shared = false) := by
      rcases hok with h | h
      · intro hc; exact hc.1 h
      · intro hc; rw [h] at hc; cases hc.2
    simp only [delete_recipe, if_neg hrid, hr, if_neg hperm]
    exact ⟨by trivial, dictGet_dictRemove_self _ _ hnodup, by trivial⟩

/-- Concrete instance of delete_recipe_spec over a two-recipe store. -/
theorem delete_recipe_spec_witness :
    (dictGet "idX" [("id1", (⟨"A", 1000, 10, 5, "alice", false⟩ : Recipe))] = none →
      delete_recipe [("id1", ⟨"A", 1000, 10, 5, "alice", false⟩)] "bob" (some "idX") =
        ⟨.notFound, [("id1", ⟨"A", 1000, 10, 5, "alice", false⟩)], none⟩) ∧
    (∀ r, dictGet "idX" [("id1", (⟨"A", 1000, 10, 5, "alice", false⟩ : Recipe))] = some r →
      r.author ≠ "bob" → r.shared = false →
      delete_recipe [("id1", ⟨"A", 1000, 10, 5, "alice", false⟩)] "bob" (some "idX") =
        ⟨.permissionError, [("id1", ⟨"A", 1000, 10, 5, "alice", false⟩)], none⟩ ∧
      dictGet "idX" (delete_recipe [("id1", ⟨"A", 1000, 10, 5, "alice", false⟩)] "bob"
          (some "idX")).saved_recipes = some r) ∧
    (∀ r, dictGet "idX" [("id1", (⟨"A", 1000, 10, 5, "alice", false⟩ : Recipe))] = some r →
      (r.author = "bob" ∨ r.shared = true) →
      (delete_recipe [("id1", ⟨"A", 1000, 10, 5, "alice", false⟩)] "bob"
          (some "idX")).status = .deleted r.name ∧
      dictGet "idX" (delete_recipe [("id1", ⟨"A", 1000, 10, 5, "alice", false⟩)] "bob"
          (some "idX")).saved_recipes = none ∧
      (delete_recipe [("id1", ⟨"A", 1000, 10, 5, "alice", false⟩)] "bob"
          (some "idX")).fileWritten =
        some (delete_recipe [("id1", ⟨"A", 1000, 10, 5, "alice", false⟩)] "bob"
            (some "idX")).saved_recipes) :=
  delete_recipe_spec [("id1", ⟨"A", 1000, 10, 5, "alice", false⟩)] "bob" "idX"
    (by decide) (by decide)

/-- Claim C5 counterexample: saving with a non-empty acting user and an
empty name is rejected (a validation failure) but the source returns
silently — no QMessageBox carries a reason to the acting user, so the
failure is not surfaced as the claim states. -/
theorem save_recipe_silent_name_failure :
    (save_recipe [] "alice" "" none 0 0 0 false "fresh-1").status.isValidationError = true ∧
    (save_recipe [] "alice" "" none 0 0 0 false "fresh-1").status.warningMessage = none := by
  decide

/-- Claim C5 (amended): save fails whenever the acting user is empty or
the name is empty, and on any such failure neither the in-memory store
nor the persistence file is touched; the empty-user failure is surfaced
with a warning message, while the empty-name failure is silent. -/
theorem save_recipe_validation (store : Store) (user name : String)
    (selectedId : Option String) (speed duration acceleration : Nat)
    (sharedChecked : Bool) (freshId : String)
    (h : user = "" ∨ name = "") :
    (save_recipe store user name selectedId speed duration acceleration sharedChecked
        freshId).status.isValidationError = true ∧
    (save_recipe store user name selectedId speed duration acceleration sharedChecked
        freshId).saved_recipes = store ∧
    (save_recipe store user name selectedId speed duration acceleration sharedChecked
        freshId).fileWritten = none ∧
    (user = "" →
      (save_recipe store user name selectedId speed duration acceleration sharedChecked
          freshId).status.warningMessage = some "Please select a User first!") ∧
    (user ≠ "" →
      (save_recipe store user name selectedId speed duration acceleration sharedChecked
          freshId).status.warningMessage = none) := by
  by_cases hu : user = ""
  · simp [save_recipe, hu, SaveStatus.isValidationError, SaveStatus.warningMessage]
  · have hn : name = "" := h.resolve_left hu
    simp [save_recipe, hu, hn, SaveStatus.isValidationError, SaveStatus.warningMessage]

/-- Concrete instance of save_recipe_validation: empty name, silent
rejection, store and file untouched. -/
theorem save_recipe_validation_witness :
    (save_recipe [("id1", ⟨"A", 1000, 10, 5, "alice", false⟩)] "bob" "" none 7 8 9 true
        "fresh-1").status.isValidationError = true ∧
    (save_recipe [("id1", ⟨"A", 1000, 10, 5, "alice", false⟩)] "bob" "" none 7 8 9 true
        "fresh-1").saved_recipes = [("id1", ⟨"A", 1000, 10, 5, "alice", false⟩)] ∧
    (save_recipe [("id1", ⟨"A", 1000, 10, 5, "alice", false⟩)] "bob" "" none 7 8 9 true
        "fresh-1").fileWritten = none ∧
    ("bob" = "" →
      (save_recipe [("id1", ⟨"A", 1000, 10, 5, "alice", false⟩)] "bob" "" none 7 8 9 true
          "fresh-1").status.warningMessage = some "Please select a User first!") ∧
    ("bob" ≠ "" →
      (save_recipe [("id1", ⟨"A", 1000, 10, 5, "alice", false⟩)] "bob" "" none 7 8 9 true
          "fresh-1").status.warningMessage = none) :=
  save_recipe_validation _ "bob" "" none 7 8 9 true "fresh-1" (Or.inr rfl)

/-- Claim C10: a confirmed user deletion removes only that name from the
user list, leaves the recipe store completely unchanged (the deleted
user's recipes keep their author field), and the deleted user's
non-shared recipes appear in neither listing group computed for any
remaining user. -/
theorem delete_user_frame (st : AppState) (u v rid : String) (r : Recipe)
    (hv : v ≠ "") (hvu : v ≠ u)
    (hmem : (rid, r) ∈ st.saved_recipes) (hauth : r.author = u) (hsh : r.shared = false) :
    (delete_user st u true).1.saved_recipes = st.saved_recipes ∧
    (delete_user st u true).1.users =
      (if u ≠ "" ∧ u ∈ st.users then st.users.erase u else st.users) ∧
    (rid, r) ∈ (delete_user st u true).1.saved_recipes ∧
    (rid, r) ∉ (refresh_recipe_list (delete_user st u true).1.saved_recipes v).1 ∧
    (rid, r) ∉ (refresh_recipe_list (delete_user st u true).1.saved_recipes v).2 := by
  have hrec : (delete_user st u true).1.saved_recipes = st.saved_recipes := by
    unfold delete_user
    split <;> rfl
  have husers : (delete_user st u true).1.users =
      (if u ≠ "" ∧ u ∈ st.users then st.users.erase u else st.users) := by
    unfold delete_user
    split <;> simp_all
  refine ⟨hrec, husers, hrec ▸ hmem, ?_, ?_⟩
  · rw [hrec, mem_refresh_fst _ _ _ _ hv]
    rintro ⟨-, -, hav⟩
    exact hvu (by rw [← hav, hauth])
  · rw [hrec, mem_refresh_snd _ _ _ _ hv]
    rintro ⟨-, hsh'⟩
    rw [hsh] at hsh'
    cases hsh'

/-- Concrete instance of delete_user_frame: deleting alice leaves her
non-shared recipe in the store but invisible to bob. -/
theorem delete_user_frame_witness :
    (delete_user ⟨["alice", "bob"], [("id1", ⟨"A", 1000, 10, 5, "alice", false⟩)]⟩
        "alice" true).1.saved_recipes = [("id1", ⟨"A", 1000, 10, 5, "alice", false⟩)] ∧
    (delete_user ⟨["alice", "bob"], [("id1", ⟨"A", 1000, 10, 5, "alice", false⟩)]⟩
        "alice" true).1.users =
      (if "alice" ≠ "" ∧ "alice" ∈ ["alice", "bob"] then ["alice", "bob"].erase "alice"
       else ["alice", "bob"]) ∧
    ("id1", (⟨"A", 1000, 10, 5, "alice", false⟩ : Recipe)) ∈
      (delete_user ⟨["alice", "bob"], [("id1", ⟨"A", 1000, 10, 5, "alice", false⟩)]⟩
          "alice" true).1.saved_recipes ∧
    ("id1", (⟨"A", 1000, 10, 5, "alice", false⟩ : Recipe)) ∉
      (refresh_recipe_list (delete_user ⟨["alice", "bob"],
          [("id1", ⟨"A", 1000, 10, 5, "alice", false⟩)]⟩ "alice" true).1.saved_recipes
        "bob").1 ∧
    ("id1", (⟨"A", 1000, 10, 5, "alice", false⟩ : Recipe)) ∉
      (refresh_recipe_list (delete_user ⟨["alice", "bob"],
          [("id1", ⟨"A", 1000, 10, 5, "alice", false⟩)]⟩ "alice" true).1.saved_recipes
        "bob").2 :=
  delete_user_frame _ "alice" "bob" "id1" ⟨"A", 1000, 10, 5, "alice", false⟩
    (by decide) (by decide) (by decide) rfl rfl

theorem dictInsert_eq_append (k : String) (v : Recipe) (l : Store)
    (h : k ∉ l.map Prod.fst) : dictInsert k v l = l ++ [(k, v)] := by
  induction l with
  | nil => simp [dictInsert]
  | cons p rest ih =>
    obtain ⟨k0, v0⟩ := p
    simp only [List.map_cons, List.mem_cons] at h
    push_neg at h
    simp [dictInsert, Ne.symm h.1, ih h.2]

/-- Every key of the flattened result is either a generated uuid with
index at least the starting index, or the key of a new-format raw
record. -/
theorem mem_keys_loadDataFlat (gen : Nat → String) :
    ∀ (raw : List (String × RawVal)) (n : Nat) (q : String),
      q ∈ (loadDataFlat gen raw n).map Prod.fst →
      (∃ m, n ≤ m ∧ q = gen m) ∨ (∃ p ∈ raw, p.2.name.isSome = true ∧ q = p.1) := by
  intro raw
  induction raw with
  | nil => intro n q hq; simp [loadDataFlat] at hq
  | cons p rest ih =>
    obtain ⟨key, val⟩ := p
    intro n q hq
    cases hname : val.name with
    | none =>
      simp only [loadDataFlat, hname, List.map_cons, List.mem_cons] at hq
      rcases hq with hq | hq
      · exact Or.inl ⟨n, le_refl n, hq⟩
      · rcases ih (n + 1) q hq with ⟨m, hm, hqe⟩ | ⟨p', hp', hs, hqe⟩
        · exact Or.inl ⟨m, Nat.le_of_succ_le hm, hqe⟩
        · exact Or.inr ⟨p', List.mem_cons_of_mem _ hp', hs, hqe⟩
    | some nm =>
      simp only [loadDataFlat, hname, List.map_cons, List.mem_cons] at hq
      rcases hq with hq | hq
      · exact Or.inr ⟨(key, val), List.mem_cons_self _ _, by simp [hname], hq⟩
      · rcases ih n q hq with ⟨m, hm, hqe⟩ | ⟨p', hp', hs, hqe⟩
        · exact Or.inl ⟨m, hm, hqe⟩
        · exact Or.inr ⟨p', List.mem_cons_of_mem _ hp', hs, hqe⟩

/-- Under injectivity of the uuid source, freshness of uuids against
new-format keys, and uniqueness of raw keys, all keys of the flattened
result are pairwise distinct. -/
theorem nodup_keys_loadDataFlat (gen : Nat → String)
    (hinj : Function.Injective gen) :
    ∀ (raw : List (String × RawVal)),
      (∀ n p, p ∈ raw → p.2.name.isSome = true → gen n ≠ p.1) →
      (raw.map Prod.fst).Nodup →
      ∀ n, ((loadDataFlat gen raw n).map Prod.fst).Nodup := by
  intro raw
  induction raw with
  | nil => intro _ _ n; simp [loadDataFlat]
  | cons p rest ih =>
    obtain ⟨key, val⟩ := p
    intro hfresh hnodup n
    have hfresh' : ∀ n p, p ∈ rest → p.2.name.isSome = true → gen n ≠ p.1 :=
      fun n p hp => hfresh n p (List.mem_cons_of_mem _ hp)
    simp only [List.map_cons, List.nodup_cons] at hnodup
    cases hname : val.name with
    | none =>
      simp only [loadDataFlat, hname, List.map_cons, List.nodup_cons]
      refine ⟨?_, ih hfresh' hnodup.2 (n + 1)⟩
      intro hmem
      rcases mem_keys_loadDataFlat gen rest (n + 1) (gen n) hmem with
        ⟨m, hm, hqe⟩ | ⟨p', hp', hs, hqe⟩
      · have := hinj hqe
        omega
      · exact hfresh' n p' hp' hs hqe
    | some nm =>
      simp only [loadDataFlat, hname, List.map_cons, List.nodup_cons]
      refine ⟨?_, ih hfresh' hnodup.2 n⟩
      intro hmem
      rcases mem_keys_loadDataFlat gen rest n key hmem with
        ⟨m, _, hqe⟩ | ⟨p', hp', _, hqe⟩
      · exact hfresh m (key, val) (List.mem_cons_self _ _) (by simp [hname]) hqe.symm
      · exact hnodup.1 (hqe ▸ List.mem_map_of_mem Prod.fst hp')

/-- When no inserted key is already present, the migration fold is plain
accumulation: loadGo appends the flattened result to its accumulator. -/
theorem loadGo_eq_append (gen : Nat → String) :
    ∀ (raw : List (String × RawVal)) (n : Nat) (acc : Store),
      ((loadDataFlat gen raw n).map Prod.fst).Nodup →
      (∀ q ∈ (loadDataFlat gen raw n).map Prod.fst, q ∉ acc.map Prod.fst) →
      loadGo gen raw n acc = acc ++ loadDataFlat gen raw n := by
  intro raw
  induction raw with
  | nil => intro n acc _ _; simp [loadGo, loadDataFlat]
  | cons p rest ih =>
    obtain ⟨key, val⟩ := p
    intro n acc hnodupf hdisj
    cases hname : val.name with
    | none =>
      simp only [loadDataFlat, hname, List.map_cons, List.nodup_cons] at hnodupf hdisj
      have hins : dictInsert (gen n)
          ⟨key, val.speed, val.duration, val.acceleration, val.author, val.shared⟩ acc =
          acc ++ [(gen n, ⟨key, val.speed, val.duration, val.acceleration, val.author,
            val.shared⟩)] :=
        dictInsert_eq_append _ _ _ (hdisj (gen n) (List.mem_cons_self _ _))
      have hstep : loadGo gen ((key, val) :: rest) n acc =
          loadGo gen rest (n + 1)
            (acc ++ [(gen n, ⟨key, val.speed, val.duration, val.acceleration, val.author,
              val.shared⟩)]) := by
        simp [loadGo, hname, hins]
      rw [hstep, ih (n + 1) _ hnodupf.2 ?_]
      · simp [loadDataFlat, hname]
      · intro q hq
        simp only [List.map_append, List.map_cons, List.map_nil, List.mem_append,
          List.mem_singleton]
        push_neg
        exact ⟨hdisj q (List.mem_cons_of_mem _ hq), fun hqe => hnodupf.1 (hqe ▸ hq)⟩
    | some nm =>
      simp only [loadDataFlat, hname, List.map_cons, List.nodup_cons] at hnodupf hdisj
      have hins : dictInsert key
          ⟨nm, val.speed, val.duration, val.acceleration, val.author, val.shared⟩ acc =
          acc ++ [(key, ⟨nm, val.speed, val.duration, val.acceleration, val.author,
            val.shared⟩)] :=
        dictInsert_eq_append _ _ _ (hdisj key (List.mem_cons_self _ _))
      have hstep : loadGo gen ((key, val) :: rest) n acc =
          loadGo gen rest n
            (acc ++ [(key, ⟨nm, val.speed, val.duration, val.acceleration, val.author,
              val.shared⟩)]) := by
        simp [loadGo, hname, hins]
      rw [hstep, ih n _ hnodupf.2 ?_]
      · simp [loadDataFlat, hname]
      · intro q hq
        simp only [List.map_append, List.map_cons, List.map_nil, List.mem_append,
          List.mem_singleton]
        push_neg
        exact ⟨hdisj q (List.mem_cons_of_mem _ hq), fun hqe => hnodupf.1 (hqe ▸ hq)⟩

/-- Each legacy raw record reaches the flattened result under some
generated uuid, with its key moved into the name field and all other
fields preserved. -/
theorem legacy_mem_loadDataFlat (gen : Nat → String) :
    ∀ (raw : List (String × RawVal)) (n : Nat) (key : String) (val : RawVal),
      (key, val) ∈ raw → val.name = none →
      ∃ m, (gen m, (⟨key, val.speed, val.duration, val.acceleration, val.author,
        val.shared⟩ : Recipe)) ∈ loadDataFlat gen raw n := by
  intro raw
  induction raw with
  | nil => intro n key val hm; simp at hm
  | cons p rest ih =>
    obtain ⟨key0, val0⟩ := p
    intro n key val hm hname
    rcases List.mem_cons.mp hm with hm | hm
    · obtain ⟨h1, h2⟩ := Prod.mk.injEq .. ▸ hm
      subst h1; subst h2
      exact ⟨n, by simp [loadDataFlat, hname]⟩
    · cases hname0 : val0.name with
      | none =>
        obtain ⟨m, hmem⟩ := ih (n + 1) key val hm hname
        exact ⟨m, by simp [loadDataFlat, hname0, hmem]⟩
      | some nm0 =>
        obtain ⟨m, hmem⟩ := ih n key val hm hname
        exact ⟨m, by simp [loadDataFlat, hname0, hmem]⟩

/-- Each new-format raw record reaches the flattened result unchanged,
under its existing key. -/
theorem newfmt_mem_loadDataFlat (gen : Nat → String) :
    ∀ (raw : List (String × RawVal)) (n : Nat) (key : String) (val : RawVal) (nm : String),
      (key, val) ∈ raw → val.name = some nm →
      (key, (⟨nm, val.speed, val.duration, val.acceleration, val.author,
        val.shared⟩ : Recipe)) ∈ loadDataFlat gen raw n := by
  intro raw
  induction raw with
  | nil => intro n key val nm hm; simp at hm
  | cons p rest ih =>
    obtain ⟨key0, val0⟩ := p
    intro n key val nm hm hname
    rcases List.mem_cons.mp hm with hm | hm
    · obtain ⟨h1, h2⟩ := Prod.mk.injEq .. ▸ hm
      subst h1; subst h2
      simp [loadDataFlat, hname]
    · cases hname0 : val0.name with
      | none => simp [loadDataFlat, hname0, ih (n + 1) key val nm hm hname]
      | some nm0 => simp [loadDataFlat, hname0, ih n key val nm hm hname]

/-- Claim C9: loading durable storage migrates every legacy record (no
name field) to a record keyed by a freshly generated identifier distinct
from every other identifier in the result, with name equal to the
legacy key and all other fields preserved, while new-format records are
kept under their existing identifier unchanged.  gen is the stream of
uuid4 values, assumed injective and avoiding the keys of new-format
records. -/
theorem load_data_migration (gen : Nat → String) (raw : List (String × RawVal))
    (hinj : Function.Injective gen)
    (hfresh : ∀ n p, p ∈ raw → p.2.name.isSome = true → gen n ≠ p.1)
    (hnodup : (raw.map Prod.fst).Nodup) :
    ((load_data gen raw).map Prod.fst).Nodup ∧
    (∀ key val, (key, val) ∈ raw → val.name = none →
      ∃ m, (gen m, (⟨key, val.speed, val.duration, val.acceleration, val.author,
        val.shared⟩ : Recipe)) ∈ load_data gen raw) ∧
    (∀ key val nm, (key, val) ∈ raw → val.name = some nm →
      (key, (⟨nm, val.speed, val.duration, val.acceleration, val.author,
        val.shared⟩ : Recipe)) ∈ load_data gen raw) := by
  have hflat : load_data gen raw = loadDataFlat gen raw 0 := by
    unfold load_data
    rw [loadGo_eq_append gen raw 0 []
      (nodup_keys_loadDataFlat gen hinj raw hfresh hnodup 0) (by simp)]
    simp
  rw [hflat]
  exact ⟨nodup_keys_loadDataFlat gen hinj raw hfresh hnodup 0,
    fun key val hm hn => legacy_mem_loadDataFlat gen raw 0 key val hm hn,
    fun key val nm hm hn => newfmt_mem_loadDataFlat gen raw 0 key val nm hm hn⟩

/-- Concrete instance of load_data_migration: one legacy record keyed
MyRecipe and one new-format record, loaded with the uuid stream
x, xx, xxx, ... -/
theorem load_data_migration_witness :
    ((load_data (fun n => String.mk (List.replicate (n + 1) 'x'))
        [("MyRecipe", ⟨none, 3000, 30, 500, "alice", false⟩),
         ("kq", ⟨some "Other", 1000, 10, 100, "bob", true⟩)]).map Prod.fst).Nodup ∧
    (∀ key val, (key, val) ∈
        ([("MyRecipe", ⟨none, 3000, 30, 500, "alice", false⟩),
          ("kq", ⟨some "Other", 1000, 10, 100, "bob", true⟩)] : List (String × RawVal)) →
      val.name = none →
      ∃ m, ((fun n => String.mk (List.replicate (n + 1) 'x')) m,
        (⟨key, val.speed, val.duration, val.acceleration, val.author,
          val.shared⟩ : Recipe)) ∈
        load_data (fun n => String.mk (List.replicate (n + 1) 'x'))
          [("MyRecipe", ⟨none, 3000, 30, 500, "alice", false⟩),
           ("kq", ⟨some "Other", 1000, 10, 100, "bob", true⟩)]) ∧
    (∀ key val nm, (key, val) ∈
        ([("MyRecipe", ⟨none, 3000, 30, 500, "alice", false⟩),
          ("kq", ⟨some "Other", 1000, 10, 100, "bob", true⟩)] : List (String × RawVal)) →
      val.name = some nm →
      (key, (⟨nm, val.speed, val.duration, val.acceleration, val.author,
        val.shared⟩ : Recipe)) ∈
        load_data (fun n => String.mk (List.replicate (n + 1) 'x'))
          [("MyRecipe", ⟨none, 3000, 30, 500, "alice", false⟩),
           ("kq", ⟨some "Other", 1000, 10, 100, "bob", true⟩)]) :=
  load_data_migration _ _
    (by
      intro a b h
      have h2 : List.replicate (a + 1) 'x' = List.replicate (b + 1) 'x' :=
        congrArg String.data h
      have h3 := congrArg List.length h2
      simpa using h3)
    (by
      intro n p hp hs
      simp only [List.mem_cons, List.not_mem_nil, or_false] at hp
      rcases hp with hp | hp
      · subst hp; simp at hs
      · subst hp
        intro h
        have hd : List.replicate (n + 1) 'x' = "kq".data := congrArg String.data h
        have hlen : n + 1 = ("kq".data).length := by
          simpa using congrArg List.length hd
        rw [show ("kq".data).length = 2 from by decide] at hlen
        have hn2 : n = 1 := by omega
        subst hn2
        exact absurd h (by decide))
    (by decide)

theorem noStepNotifAfterCancel_append (xs ys : List Ev)
    (hx : noStepNotifAfterCancel xs = true) (hy : noStepNotifAfterCancel ys = true)
    (hc : Ev.check false ∈ xs → ys.all (fun x => !x.isStepNotif) = true) :
    noStepNotifAfterCancel (xs ++ ys) = true := by
  induction xs with
  | nil => simpa using hy
  | cons x xs ih =>
    by_cases hxe : x = Ev.check false
    · subst hxe
      have hys := hc (List.mem_cons_self _ _)
      simp only [noStepNotifAfterCancel, if_pos rfl, if_true] at hx
      simp only [List.cons_append, noStepNotifAfterCancel, if_pos rfl, if_true,
        List.all_append, Bool.and_eq_true]
      simp only [List.all_eq_true] at hx hys ⊢
      intro x hx2
      rcases List.mem_append.mp hx2 with h | h
      · exact hx x h
      · exact hys x h
    · simp only [noStepNotifAfterCancel, if_neg hxe] at hx
      simp only [List.cons_append, noStepNotifAfterCancel, if_neg hxe]
      exact ih hx (fun hm => hc (List.mem_cons_of_mem _ hm))

theorem countdown_cancel (mkTick : Nat → Ev) (hmk : ∀ u, mkTick u ≠ Ev.check false) :
    ∀ (t : Nat) (c : Option Nat),
      noStepNotifAfterCancel (countdown mkTick t c).1 = true ∧
      (Ev.check false ∈ (countdown mkTick t c).1 → (countdown mkTick t c).2 = some 0) := by
  intro t
  induction t with
  | zero =>
    intro c
    simp [countdown, noStepNotifAfterCancel]
  | succ t ih =>
    intro c
    match c with
    | some 0 =>
      constructor
      · simp [countdown, noStepNotifAfterCancel, Ev.isStepNotif]
      · intro _; simp [countdown]
    | none =>
      have h := ih none
      constructor
      · simp only [countdown, noStepNotifAfterCancel,
          if_neg (show Ev.check true ≠ Ev.check false by simp), if_neg (hmk (t + 1))]
        exact h.1
      · intro hm
        simp only [countdown, List.mem_cons] at hm
        rcases hm with hm | hm | hm
        · exact absurd hm.symm (by simp)
        · exact absurd hm.symm (hmk (t + 1))
        · simpa [countdown] using h.2 hm
    | some (k + 1) =>
      have h := ih (some k)
      constructor
      · simp only [countdown, noStepNotifAfterCancel,
          if_neg (show Ev.check true ≠ Ev.check false by simp), if_neg (hmk (t + 1))]
        exact h.1
      · intro hm
        simp only [countdown, List.mem_cons] at hm
        rcases hm with hm | hm | hm
        · exact absurd hm.symm (by simp)
        · exact absurd hm.symm (hmk (t + 1))
        · simpa [countdown] using h.2 hm

theorem execStep_cancel (sim hasSer : Bool) (l total : Nat) (s : Step) (c : Option Nat) :
    noStepNotifAfterCancel (execStep sim hasSer l total s c).1 = true ∧
    (Ev.check false ∈ (execStep sim hasSer l total s c).1 →
      (execStep sim hasSer l total s c).2 = some 0) := by
  cases s with
  | wait nm d =>
    have h := countdown_cancel (Ev.waitTick l total nm) (by intro u; simp) d c
    cases hb : (!sim && hasSer) <;>
      simp only [execStep, hb, Bool.false_eq_true, if_neg, if_pos, ite_true, ite_false] <;>
      constructor
    · simpa [waitTicks] using h.1
    · intro hm
      simp only [List.nil_append] at hm
      simpa [waitTicks] using h.2 (by simpa [waitTicks] using hm)
    · simp only [List.singleton_append, noStepNotifAfterCancel,
        if_neg (show Ev.cmd "SPEED:0\n" ≠ Ev.check false by simp)]
      simpa [waitTicks] using h.1
    · intro hm
      simp only [List.singleton_append, List.mem_cons] at hm
      rcases hm with hm | hm
      · exact absurd hm.symm (by simp)
      · simpa [waitTicks] using h.2 (by simpa [waitTicks] using hm)
  | spin nm sp d a =>
    have h := countdown_cancel (Ev.spinTick l total nm sp) (by intro u; simp) d c
    cases hb : (!sim && hasSer) <;>
      simp only [execStep, hb, Bool.false_eq_true, if_neg, if_pos, ite_true, ite_false] <;>
      constructor
    · simp only [List.nil_append, noStepNotifAfterCancel,
        if_neg (show Ev.ramp l total nm sp ≠ Ev.check false by simp)]
      simpa [spinTicks] using h.1
    · intro hm
      simp only [List.nil_append, List.mem_cons] at hm
      rcases hm with hm | hm
      · exact absurd hm.symm (by simp)
      · simpa [spinTicks] using h.2 (by simpa [spinTicks] using hm)
    · simp only [List.singleton_append, noStepNotifAfterCancel,
        if_neg (show Ev.cmd ("SPEED:" ++ toString sp ++ "\n") ≠ Ev.check false by simp),
        if_neg (show Ev.ramp l total nm sp ≠ Ev.check false by simp)]
      simpa [spinTicks] using h.1
    · intro hm
      simp only [List.singleton_append, List.mem_cons] at hm
      rcases hm with hm | hm | hm
      · exact absurd hm.symm (by simp)
      · exact absurd hm.symm (by simp)
      · simpa [spinTicks] using h.2 (by simpa [spinTicks] using hm)

theorem runSteps_zero (sim hasSer : Bool) (l total : Nat) (steps : List Step) :
    (runSteps sim hasSer l total steps (some 0)).1.all (fun x => !x.isStepNotif) = true ∧
    (runSteps sim hasSer l total steps (some 0)).2 = some 0 := by
  cases steps <;> simp [runSteps, Ev.isStepNotif]

theorem runSteps_cancel (sim hasSer : Bool) (l total : Nat) :
    ∀ (steps : List Step) (c : Option Nat),
      noStepNotifAfterCancel (runSteps sim hasSer l total steps c).1 = true ∧
      (Ev.check false ∈ (runSteps sim hasSer l total steps c).1 →
        (runSteps sim hasSer l total steps c).2 = some 0) := by
  intro steps
  induction steps with
  | nil =>
    intro c
    simp [runSteps, noStepNotifAfterCancel]
  | cons s rest ih =>
    intro c
    have main : ∀ c' : Option Nat,
        noStepNotifAfterCancel
          (Ev.check true ::
            ((execStep sim hasSer l total s c').1 ++
              (runSteps sim hasSer l total rest (execStep sim hasSer l total s c').2).1)) =
          true ∧
        (Ev.check false ∈
            (Ev.check true ::
              ((execStep sim hasSer l total s c').1 ++
                (runSteps sim hasSer l total rest
                  (execStep sim hasSer l total s c').2).1)) →
          (runSteps sim hasSer l total rest (execStep sim hasSer l total s c').2).2 =
            some 0) := by
      intro c'
      have he := execStep_cancel sim hasSer l total s c'
      have hr := ih (execStep sim hasSer l total s c').2
      have hbridge : Ev.check false ∈ (execStep sim hasSer l total s c').1 →
          (runSteps sim hasSer l total rest (execStep sim hasSer l total s c').2).1.all
            (fun x => !x.isStepNotif) = true := by
        intro hm
        rw [he.2 hm]
        exact (runSteps_zero sim hasSer l total rest).1
      constructor
      · simp only [noStepNotifAfterCancel,
          if_neg (show Ev.check true ≠ Ev.check false by simp)]
        exact noStepNotifAfterCancel_append _ _ he.1 hr.1 hbridge
      · intro hm
        simp only [List.mem_cons, List.mem_append] at hm
        rcases hm with hm | hm | hm
        · exact absurd hm.symm (by simp)
        · rw [he.2 hm]
          exact (runSteps_zero sim hasSer l total rest).2
        · exact hr.2 hm
    match c with
    | some 0 =>
      constructor
      · simp [runSteps, noStepNotifAfterCancel, Ev.isStepNotif]
      · intro _; simp [runSteps]
    | none =>
      have h := main none
      constructor
      · simpa [runSteps] using h.1
      · intro hm
        simpa [runSteps] using h.2 (by simpa [runSteps] using hm)
    | some (k + 1) =>
      have h := main (some k)
      constructor
      · simpa [runSteps] using h.1
      · intro hm
        simpa [runSteps] using h.2 (by simpa [runSteps] using hm)

theorem runLoops_zero (sim hasSer : Bool) (steps : List Step) (total cur rem : Nat) :
    (runLoops sim hasSer steps total cur rem (some 0)).1.all (fun x => !x.isStepNotif) = true ∧
    (runLoops sim hasSer steps total cur rem (some 0)).2 = some 0 := by
  cases rem <;> simp [runLoops, Ev.isStepNotif]

theorem runLoops_cancel (sim hasSer : Bool) (steps : List Step) (total : Nat) :
    ∀ (rem cur : Nat) (c : Option Nat),
      noStepNotifAfterCancel (runLoops sim hasSer steps total cur rem c).1 = true ∧
      (Ev.check false ∈ (runLoops sim hasSer steps total cur rem c).1 →
        (runLoops sim hasSer steps total cur rem c).2 = some 0) := by
  intro rem
  induction rem with
  | zero =>
    intro cur c
    simp [runLoops, noStepNotifAfterCancel]
  | succ rem ih =>
    intro cur c
    have main : ∀ c' : Option Nat,
        noStepNotifAfterCancel
          (Ev.check true ::
            ((runSteps sim hasSer cur total steps c').1 ++
              (runLoops sim hasSer steps total (cur + 1) rem
                (runSteps sim hasSer cur total steps c').2).1)) = true ∧
        (Ev.check false ∈
            (Ev.check true ::
              ((runSteps sim hasSer cur total steps c').1 ++
                (runLoops sim hasSer steps total (cur + 1) rem
                  (runSteps sim hasSer cur total steps c').2).1)) →
          (runLoops sim hasSer steps total (cur + 1) rem
            (runSteps sim hasSer cur total steps c').2).2 = some 0) := by
      intro c'
      have he := runSteps_cancel sim hasSer cur total steps c'
      have hr := ih (cur + 1) (runSteps sim hasSer cur total steps c').2
      have hbridge : Ev.check false ∈ (runSteps sim hasSer cur total steps c').1 →
          (runLoops sim hasSer steps total (cur + 1) rem
            (runSteps sim hasSer cur total steps c').2).1.all
              (fun x => !x.isStepNotif) = true := by
        intro hm
        rw [he.2 hm]
        exact (runLoops_zero sim hasSer steps total (cur + 1) rem).1
      constructor
      · simp only [noStepNotifAfterCancel,
          if_neg (show Ev.check true ≠ Ev.check false by simp)]
        exact noStepNotifAfterCancel_append _ _ he.1 hr.1 hbridge
      · intro hm
        simp only [List.mem_cons, List.mem_append] at hm
        rcases hm with hm | hm | hm
        · exact absurd hm.symm (by simp)
        · rw [he.2 hm]
          exact (runLoops_zero sim hasSer steps total (cur + 1) rem).2
        · exact hr.2 hm
    match c with
    | some 0 =>
      constructor
      · simp [runLoops, noStepNotifAfterCancel, Ev.isStepNotif]
      · intro _; simp [runLoops]
    | none =>
      have h := main none
      constructor
      · simpa [runLoops] using h.1
      · intro hm
        simpa [runLoops] using h.2 (by simpa [runLoops] using hm)
    | some (k + 1) =>
      have h := main (some k)
      constructor
      · simpa [runLoops] using h.1
      · intro hm
        simpa [runLoops] using h.2 (by simpa [runLoops] using hm)

theorem Ev.isCheck_check (b : Bool) : (Ev.check b).isCheck = true := rfl

theorem Ev.isCheck_cmd (s : String) : (Ev.cmd s).isCheck = false := rfl

theorem Ev.isCheck_ramp (l total : Nat) (nm : String) (sp : Nat) :
    (Ev.ramp l total nm sp).isCheck = false := rfl

theorem Ev.isCheck_init : (Ev.init).isCheck = false := rfl

theorem Ev.isCheck_connected : (Ev.connected).isCheck = false := rfl

theorem Ev.isCheck_closePort : (Ev.closePort).isCheck = false := rfl

theorem Ev.isCheck_complete : (Ev.complete).isCheck = false := rfl

theorem Ev.isCheck_finishedSig : (Ev.finishedSig).isCheck = false := rfl

theorem ticksCheckedFrom_append (xs ys : List Ev) :
    ∀ prev, ticksCheckedFrom prev xs = true → (∀ q, ticksCheckedFrom q ys = true) →
      ticksCheckedFrom prev (xs ++ ys) = true := by
  induction xs with
  | nil => intro prev _ hy; simpa using hy prev
  | cons x xs ih =>
    intro prev hx hy
    simp only [ticksCheckedFrom, Bool.and_eq_true] at hx
    simp only [List.cons_append, ticksCheckedFrom, Bool.and_eq_true]
    exact ⟨hx.1, ih x hx.2 hy⟩

theorem countdown_ticksChecked (mkTick : Nat → Ev) :
    ∀ (t : Nat) (c : Option Nat) (prev : Ev),
      ticksCheckedFrom prev (countdown mkTick t c).1 = true := by
  intro t
  induction t with
  | zero => intro c prev; simp [countdown, ticksCheckedFrom]
  | succ t ih =>
    intro c prev
    match c with
    | some 0 => simp [countdown, ticksCheckedFrom, Ev.isTick]
    | none => simp [countdown, ticksCheckedFrom, Ev.isTick, ih]
    | some (k + 1) => simp [countdown, ticksCheckedFrom, Ev.isTick, ih]

theorem execStep_ticksChecked (sim hasSer : Bool) (l total : Nat) (s : Step)
    (c : Option Nat) :
    ∀ prev, ticksCheckedFrom prev (execStep sim hasSer l total s c).1 = true := by
  intro prev
  cases s <;> cases hb : (!sim && hasSer) <;>
    simp [execStep, hb, spinTicks, waitTicks, ticksCheckedFrom, Ev.isTick,
      countdown_ticksChecked]

theorem runSteps_ticksChecked (sim hasSer : Bool) (l total : Nat) :
    ∀ (steps : List Step) (c : Option Nat) (prev : Ev),
      ticksCheckedFrom prev (runSteps sim hasSer l total steps c).1 = true := by
  intro steps
  induction steps with
  | nil => intro c prev; simp [runSteps, ticksCheckedFrom]
  | cons s rest ih =>
    intro c prev
    have main : ∀ (c' : Option Nat),
        ticksCheckedFrom prev
          (Ev.check true ::
            ((execStep sim hasSer l total s c').1 ++
              (runSteps sim hasSer l total rest
                (execStep sim hasSer l total s c').2).1)) = true := by
      intro c'
      simp only [ticksCheckedFrom, Bool.and_eq_true]
      refine ⟨by simp [Ev.isTick], ?_⟩
      exact ticksCheckedFrom_append _ _ _ (execStep_ticksChecked sim hasSer l total s c' _)
        (fun q => ih _ q)
    match c with
    | some 0 => simp [runSteps, ticksCheckedFrom, Ev.isTick]
    | none => simpa [runSteps] using main none
    | some (k + 1) => simpa [runSteps] using main (some k)

theorem runLoops_ticksChecked (sim hasSer : Bool) (steps : List Step) (total : Nat) :
    ∀ (rem cur : Nat) (c : Option Nat) (prev : Ev),
      ticksCheckedFrom prev (runLoops sim hasSer steps total cur rem c).1 = true := by
  intro rem
  induction rem with
  | zero => intro cur c prev; simp [runLoops, ticksCheckedFrom]
  | succ rem ih =>
    intro cur c prev
    have main : ∀ (c' : Option Nat),
        ticksCheckedFrom prev
          (Ev.check true ::
            ((runSteps sim hasSer cur total steps c').1 ++
              (runLoops sim hasSer steps total (cur + 1) rem
                (runSteps sim hasSer cur total steps c').2).1)) = true := by
      intro c'
      simp only [ticksCheckedFrom, Bool.and_eq_true]
      refine ⟨by simp [Ev.isTick], ?_⟩
      exact ticksCheckedFrom_append _ _ _
        (runSteps_ticksChecked sim hasSer cur total steps c' _) (fun q => ih _ _ q)
    match c with
    | some 0 => simp [runLoops, ticksCheckedFrom, Ev.isTick]
    | none => simpa [runLoops] using main none
    | some (k + 1) => simpa [runLoops] using main (some k)

theorem countdown_none (mkTick : Nat → Ev) (hmk : ∀ u, (mkTick u).isCheck = false) :
    ∀ t, (countdown mkTick t none).1.countP (fun e => e.isCheck) = t ∧
      (countdown mkTick t none).2 = none := by
  intro t
  induction t with
  | zero => simp [countdown]
  | succ t ih =>
    constructor
    · simp [countdown, List.countP_cons, Ev.isCheck_check, hmk (t + 1), ih.1]
    · simpa [countdown] using ih.2

theorem execStep_none (sim hasSer : Bool) (l total : Nat) (s : Step) :
    (execStep sim hasSer l total s none).1.countP (fun e => e.isCheck) = s.duration ∧
    (execStep sim hasSer l total s none).2 = none := by
  cases s with
  | wait nm d =>
    have h := countdown_none (Ev.waitTick l total nm) (fun u => rfl) d
    cases hb : (!sim && hasSer) <;>
      simp [execStep, hb, waitTicks, Step.duration, List.countP_append, List.countP_cons,
        Ev.isCheck_cmd, h.1, h.2]
  | spin nm sp d a =>
    have h := countdown_none (Ev.spinTick l total nm sp) (fun u => rfl) d
    cases hb : (!sim && hasSer) <;>
      simp [execStep, hb, spinTicks, Step.duration, List.countP_append, List.countP_cons,
        Ev.isCheck_cmd, Ev.isCheck_ramp, h.1, h.2]

theorem runSteps_none (sim hasSer : Bool) (l total : Nat) :
    ∀ (steps : List Step),
      (runSteps sim hasSer l total steps none).1.countP (fun e => e.isCheck) =
        checksPerLoop steps ∧
      (runSteps sim hasSer l total steps none).2 = none := by
  intro steps
  induction steps with
  | nil => simp [runSteps, checksPerLoop]
  | cons s rest ih =>
    have he := execStep_none sim hasSer l total s
    constructor
    · simp only [runSteps, he.2]
      simp [List.countP_cons, List.countP_append, Ev.isCheck_check, he.1, ih.1, checksPerLoop]
      omega
    · simp only [runSteps, he.2]
      exact ih.2

theorem runLoops_none (sim hasSer : Bool) (steps : List Step) (total : Nat) :
    ∀ (rem cur : Nat),
      (runLoops sim hasSer steps total cur rem none).1.countP (fun e => e.isCheck) =
        rem * (1 + checksPerLoop steps) ∧
      (runLoops sim hasSer steps total cur rem none).2 = none := by
  intro rem
  induction rem with
  | zero => intro cur; simp [runLoops]
  | succ rem ih =>
    intro cur
    have he := runSteps_none sim hasSer cur total steps
    constructor
    · simp only [runLoops, he.2]
      simp [List.countP_cons, List.countP_append, Ev.isCheck_check, he.1, (ih (cur + 1)).1]
      rw [Nat.add_mul]
      omega
    · simp only [runLoops, he.2]
      exact (ih (cur + 1)).2

/-- Claim C6 counterexample: the simulated run on
Spin(2000, 3), Wait(2) with loop count 2 does not emit exactly the
claimed sequence starting with a ramp notification — the engine first
emits an initialization notification (line 61), so the notification
sequence differs from the claimed one. -/
theorem motorWorker_sim_trace_counterexample :
    (MotorWorker.run [Step.spin "Coat" 2000 3 50, Step.wait "Wait" 2] 2 true true none
        none).filter Ev.isNotification ≠
      [Ev.ramp 1 2 "Coat" 2000,
       Ev.spinTick 1 2 "Coat" 2000 3, Ev.spinTick 1 2 "Coat" 2000 2,
       Ev.spinTick 1 2 "Coat" 2000 1,
       Ev.waitTick 1 2 "Wait" 2, Ev.waitTick 1 2 "Wait" 1,
       Ev.ramp 2 2 "Coat" 2000,
       Ev.spinTick 2 2 "Coat" 2000 3, Ev.spinTick 2 2 "Coat" 2000 2,
       Ev.spinTick 2 2 "Coat" 2000 1,
       Ev.waitTick 2 2 "Wait" 2, Ev.waitTick 2 2 "Wait" 1,
       Ev.complete] := by
  decide

/-- Claim C6 (amended): the uncancelled simulated run on
Spin(2000, 3), Wait(2) with loop count 2 emits exactly, in order: an
initialization notification, then per loop a ramp notification, spin
ticks for 3, 2, 1 seconds remaining and wait ticks for 2, 1 seconds
remaining (six step notifications per loop, identical across the two
loops except for the loop index), then a terminal completion
notification; and no device command is issued in simulated mode.  The
second conjunct fixes the exact emitted message strings. -/
theorem motorWorker_sim_trace :
    (MotorWorker.run [Step.spin "Coat" 2000 3 50, Step.wait "Wait" 2] 2 true true none
        none).filter Ev.isNotification =
      [Ev.init,
       Ev.ramp 1 2 "Coat" 2000,
       Ev.spinTick 1 2 "Coat" 2000 3, Ev.spinTick 1 2 "Coat" 2000 2,
       Ev.spinTick 1 2 "Coat" 2000 1,
       Ev.waitTick 1 2 "Wait" 2, Ev.waitTick 1 2 "Wait" 1,
       Ev.ramp 2 2 "Coat" 2000,
       Ev.spinTick 2 2 "Coat" 2000 3, Ev.spinTick 2 2 "Coat" 2000 2,
       Ev.spinTick 2 2 "Coat" 2000 1,
       Ev.waitTick 2 2 "Wait" 2, Ev.waitTick 2 2 "Wait" 1,
       Ev.complete] ∧
    (MotorWorker.run [Step.spin "Coat" 2000 3 50, Step.wait "Wait" 2] 2 true true none
        none).filterMap Ev.message =
      ["Initializing...",
       "Loop 1/2 | Coat: Ramping to 2000 RPM...",
       "Loop 1/2 | Coat: Spinning 2000 RPM (3s left)",
       "Loop 1/2 | Coat: Spinning 2000 RPM (2s left)",
       "Loop 1/2 | Coat: Spinning 2000 RPM (1s left)",
       "Loop 1/2 | Wait: WAITING 2s...",
       "Loop 1/2 | Wait: WAITING 1s...",
       "Loop 2/2 | Coat: Ramping to 2000 RPM...",
       "Loop 2/2 | Coat: Spinning 2000 RPM (3s left)",
       "Loop 2/2 | Coat: Spinning 2000 RPM (2s left)",
       "Loop 2/2 | Coat: Spinning 2000 RPM (1s left)",
       "Loop 2/2 | Wait: WAITING 2s...",
       "Loop 2/2 | Wait: WAITING 1s...",
       "Process Complete."] ∧
    (MotorWorker.run [Step.spin "Coat" 2000 3 50, Step.wait "Wait" 2] 2 true true none
        none).all (fun ev => !ev.isCmd) = true := by
  refine ⟨by decide, by decide, by decide⟩

/-- Claim C7: in a live run with an open connection, the shutdown
command SPEED:0 (followed by closing the port) precedes the terminal
completion notification; no per-step progress notification occurs after
a read of the cancellation flag that returned false; every per-second
tick is immediately preceded by a flag read that returned true; and an
uncancelled run performs exactly one flag read per loop iteration, one
per step, and one per countdown second. -/
theorem motorWorker_cancellation_live (steps : List Step) (loop_count : Nat)
    (cancel : Option Nat) :
    (∃ p, MotorWorker.run steps loop_count false true none cancel =
      p ++ [Ev.cmd "SPEED:0\n", Ev.closePort, Ev.complete, Ev.finishedSig]) ∧
    noStepNotifAfterCancel (MotorWorker.run steps loop_count false true none cancel) = true ∧
    ticksOk (MotorWorker.run steps loop_count false true none cancel) = true ∧
    (cancel = none →
      countChecks (MotorWorker.run steps loop_count false true none cancel) =
        loop_count * (1 + checksPerLoop steps)) := by
  have hrun : MotorWorker.run steps loop_count false true none cancel =
      Ev.init :: Ev.connected ::
        ((runLoops false true steps loop_count 1 loop_count cancel).1 ++
          [Ev.cmd "SPEED:0\n", Ev.closePort, Ev.complete, Ev.finishedSig]) := by
    simp [MotorWorker.run]
  refine ⟨⟨Ev.init :: Ev.connected ::
      (runLoops false true steps loop_count 1 loop_count cancel).1, ?_⟩, ?_, ?_, ?_⟩
  · rw [hrun]; simp
  · rw [hrun]
    simp only [noStepNotifAfterCancel, if_neg (show Ev.init ≠ Ev.check false by simp),
      if_neg (show Ev.connected ≠ Ev.check false by simp)]
    exact noStepNotifAfterCancel_append _ _
      (runLoops_cancel false true steps loop_count loop_count 1 cancel).1
      (by decide) (fun _ => by decide)
  · rw [hrun]
    simp only [ticksOk, ticksCheckedFrom, Bool.and_eq_true]
    refine ⟨by simp [Ev.isTick], ⟨by simp [Ev.isTick], ?_⟩⟩
    exact ticksCheckedFrom_append _ _ _
      (runLoops_ticksChecked false true steps loop_count loop_count 1 cancel _)
      (fun q => by simp [ticksCheckedFrom, Ev.isTick])
  · intro hcnone
    rw [hrun, hcnone]
    have hl := (runLoops_none false true steps loop_count loop_count 1).1
    simp [countChecks, List.countP_cons, List.countP_append, Ev.isCheck_init,
      Ev.isCheck_connected, Ev.isCheck_cmd, Ev.isCheck_closePort, Ev.isCheck_complete,
      Ev.isCheck_finishedSig, hl]

/-- Concrete instance of motorWorker_cancellation_live: one spin step,
two loops, cancellation observed at the sixth flag read. -/
theorem motorWorker_cancellation_live_witness :
    (∃ p, MotorWorker.run [Step.spin "A" 2000 3 0] 2 false true none (some 5) =
      p ++ [Ev.cmd "SPEED:0\n", Ev.closePort, Ev.complete, Ev.finishedSig]) ∧
    noStepNotifAfterCancel
      (MotorWorker.run [Step.spin "A" 2000 3 0] 2 false true none (some 5)) = true ∧
    ticksOk (MotorWorker.run [Step.spin "A" 2000 3 0] 2 false true none (some 5)) = true ∧
    (some 5 = none →
      countChecks (MotorWorker.run [Step.spin "A" 2000 3 0] 2 false true none (some 5)) =
        2 * (1 + checksPerLoop [Step.spin "A" 2000 3 0])) :=
  motorWorker_cancellation_live [Step.spin "A" 2000 3 0] 2 (some 5)

/-- Claim C8: starting a live run with pyserial unavailable, or with the
connection attempt raising, emits an error notification describing the
failure and terminates immediately: the whole trace is the
initialization message, the error message and the finished signal — no
step is executed, no step progress notification is emitted and no
device command (in particular no SPEED:0 shutdown) is sent. -/
theorem motorWorker_live_connection_failure (steps : List Step) (loop_count : Nat)
    (e : String) (cancel : Option Nat) :
    MotorWorker.run steps loop_count false false none cancel =
      [Ev.init, Ev.errorEmit "Error: pyserial not installed!", Ev.finishedSig] ∧
    MotorWorker.run steps loop_count false true (some e) cancel =
      [Ev.init, Ev.errorEmit ("Connection Error: " ++ e), Ev.finishedSig] ∧
    (MotorWorker.run steps loop_count false false none cancel).all
      (fun ev => !ev.isStepNotif && !ev.isCmd) = true ∧
    (MotorWorker.run steps loop_count false true (some e) cancel).all
      (fun ev => !ev.isStepNotif && !ev.isCmd) = true := by
  refine ⟨by simp [MotorWorker.run], by simp [MotorWorker.run], ?_, ?_⟩ <;>
    simp [MotorWorker.run, Ev.isStepNotif, Ev.isCmd]

end SpinCoater
